import Mathlib

/-!
Shallow embedding of the XDB-Node TCP client (`src/xdb-client.ts`), covering
the stream framer (`handleStreamData`), the pending-request queue, the socket
error/close handlers registered in `connect`, the dispatch helper
(`sendCommand`), and the `update` wrapper.  Strings are modelled as `List Char`;
promise resolvers are modelled as opaque natural-number identifiers and every
resolution/rejection/log is recorded as an explicit event.
-/

namespace XDB

/-- Wire-level strings: JavaScript strings as lists of characters. -/
abbrev Str := List Char

/-- JavaScript `string.split('\n')`: the list of segments between newline
characters.  Always non-empty; `"".split('\n')` is `[""]`. -/
def splitNl : Str → List Str
  | [] => [[]]
  | c :: s =>
    if c = '\n' then [] :: splitNl s
    else
      match splitNl s with
      | [] => [[c]]
      | a :: as => (c :: a) :: as

/-- The characters removed by JavaScript `String.prototype.trim`: ECMAScript
WhiteSpace (TAB, VT, FF, BOM and every Space_Separator: SPACE, NBSP, U+1680,
U+2000-200A, U+202F, U+205F, U+3000) plus LineTerminator (LF, CR, U+2028,
U+2029). -/
def isJsWhitespace (c : Char) : Bool :=
  c == ' ' || c == '\t' || c == '\n' || c == '\r' ||
  c == '\x0b' || c == '\x0c' || c == ' ' || c == '﻿' ||
  c == ' ' ||
  c == ' ' || c == ' ' || c == ' ' || c == ' ' ||
  c == ' ' || c == ' ' || c == ' ' || c == ' ' ||
  c == ' ' || c == ' ' || c == ' ' ||
  c == ' ' || c == ' ' || c == ' ' || c == ' ' ||
  c == '　'

/-- JavaScript `string.trim()`. -/
def jsTrim (s : Str) : Str :=
  ((s.dropWhile isJsWhitespace).reverse.dropWhile isJsWhitespace).reverse

/-- The check `line.trim() === ''` from `handleStreamData`. -/
def jsBlank (l : Str) : Bool := jsTrim l = []

/-- A socket error object: `err.code` and `err.message`. -/
structure SockErr where
  code : Str
  msg : Str
deriving DecidableEq, Repr

/-- The errno code checked by the error handler in `connect`. -/
def ECONNREFUSED : Str := "ECONNREFUSED".toList

/-- The failure condition a pending promise can be rejected with. -/
inductive FailCond where
  /-- `Error('Client is not connected to XDB Server.')` from `sendCommand`. -/
  | notConnected
  /-- `Error('Critical: Malformed JSON received.')` from `handleStreamData`. -/
  | malformed
  /-- The raw socket error forwarded by the `'error'` handler. -/
  | socket (e : SockErr)
deriving DecidableEq, Repr

/-- Log severities of the client's `log` helper. -/
inductive Level where
  | info
  | warn
  | error
deriving DecidableEq, Repr

/-- The distinct operator-visible log messages emitted by the client. -/
inductive LogMsg where
  /-- `Failed to connect to host ...` (ECONNREFUSED branch). -/
  | failedToConnect
  /-- `Hint: Is the XDB server running? ...` (ECONNREFUSED branch). -/
  | serverHint
  /-- `Socket error occurred: <message>` (generic branch). -/
  | socketError (msg : Str)
  /-- `Protocol violation: Malformed JSON received.` with the raw line attached. -/
  | malformedJson (raw : Str)
deriving DecidableEq, Repr

/-- Externally observable effects: a queued resolver resolving or rejecting,
the in-flight `connect()` promise rejecting, or a log line. -/
inductive Event (V : Type) where
  | resolve (id : Nat) (v : V)
  | reject (id : Nat) (e : FailCond)
  | connectReject (e : SockErr)
  | log (lvl : Level) (m : LogMsg)
deriving DecidableEq, Repr

/-- The mutable fields of `XDBClient`: `isConnected`, `responseQueue`
(resolvers as opaque ids, oldest first), and `streamBuffer`. -/
structure ClientState where
  isConnected : Bool
  responseQueue : List Nat
  streamBuffer : Str
deriving DecidableEq, Repr

/-- The retained tail segment, `lines.pop() || ''`: the last element of the
split (the popped value is a string, so `|| ''` only replaces an
already-empty string by itself). -/
def lastSeg : List Str → Str
  | [] => []
  | [a] => a
  | _ :: b :: rest => lastSeg (b :: rest)

/-- The effects of handing one complete line to the popped resolver:
`JSON.parse` success resolves it; failure logs the raw line and rejects it
with the malformed-JSON error. -/
def lineEvents (parse : Str → Option V) (line : Str) (r : Nat) : List (Event V) :=
  match parse line with
  | some v => [Event.resolve r v]
  | none => [Event.log Level.error (LogMsg.malformedJson line), Event.reject r FailCond.malformed]

/-- The `for (const line of lines)` loop of `handleStreamData`: blank lines are
skipped; otherwise the oldest resolver is shifted off the queue (if any) and
handed the line. -/
def processLines (parse : Str → Option V) : List Str → ClientState → ClientState × List (Event V)
  | [], st => (st, [])
  | line :: rest, st =>
    if jsBlank line then processLines parse rest st
    else
      match st.responseQueue with
      | [] => processLines parse rest st
      | r :: q =>
        let p := processLines parse rest { st with responseQueue := q }
        (p.1, lineEvents parse line r ++ p.2)

/-- The framer `handleStreamData`: append the chunk to the buffer, split on
newlines, retain the final segment as the new buffer, process the rest in
order. -/
def handleStreamData (parse : Str → Option V) (st : ClientState) (chunk : Str) :
    ClientState × List (Event V) :=
  let lines := splitNl (st.streamBuffer ++ chunk)
  processLines parse lines.dropLast { st with streamBuffer := lastSeg lines }

/-- The log lines emitted by the `'error'` handler before any rejection:
the ECONNREFUSED branch emits the failed-to-connect error plus the hint
warning; any other code emits the generic socket-error line. -/
def errorLogs (V : Type) (err : SockErr) : List (Event V) :=
  if err.code = ECONNREFUSED then
    [Event.log Level.error LogMsg.failedToConnect, Event.log Level.warn LogMsg.serverHint]
  else
    [Event.log Level.error (LogMsg.socketError err.msg)]

/-- The `'error'` handler registered in `connect`: clear `isConnected`, log,
then either reject the `connect()` promise (empty queue) or shift and reject
exactly the oldest pending resolver. -/
def onSocketError (V : Type) (st : ClientState) (err : SockErr) :
    ClientState × List (Event V) :=
  match st.responseQueue with
  | [] =>
    ({ st with isConnected := false }, errorLogs V err ++ [Event.connectReject err])
  | r :: q =>
    ({ st with isConnected := false, responseQueue := q },
     errorLogs V err ++ [Event.reject r (FailCond.socket err)])

/-- The `'close'` handler registered in `connect`: clear `isConnected` only. -/
def onClose (st : ClientState) : ClientState :=
  { st with isConnected := false }

/-- Synchronous result of `sendCommand`. -/
inductive SendResult where
  /-- The promise rejected immediately with the not-connected error. -/
  | rejectedNotConnected
  /-- A resolver was enqueued and the serialized payload written. -/
  | enqueued (id : Nat)
deriving DecidableEq, Repr

/-- The dispatch helper `sendCommand`: reject synchronously when not
connected (queue untouched,
nothing written); otherwise push the resolver and write the serialized payload
followed by the protocol newline.  The third component is the bytes written to
the socket, if any. -/
def sendCommand (ser : P → Str) (st : ClientState) (payload : P) (rid : Nat) :
    ClientState × SendResult × Option Str :=
  if st.isConnected then
    ({ st with responseQueue := st.responseQueue ++ [rid] },
     SendResult.enqueued rid, some (ser payload ++ ['\n']))
  else
    (st, SendResult.rejectedNotConnected, none)

/-- The request object, with JSON objects modelled as association lists over
an abstract value type `A`. -/
structure XDBRequest (A : Type) where
  action : Str
  collection : Option Str := none
  id : Option Str := none
  data : Option (List (Str × A)) := none
  query : Option (List (Str × A)) := none
  limit : Option Int := none

/-- The `_id` key stripped by `update`. -/
def idKey : Str := "_id".toList

/-- The payload built by `update`: `const { _id, ...cleanData } = data` drops
the caller's `_id` property; the rest-spread always yields an object, so the
`typeof cleanData === 'object'` guard always selects `cleanData`. -/
def updatePayload (collection id : Str) (data : List (Str × A)) : XDBRequest A :=
  let cleanData := data.filter (fun kv => decide (kv.1 ≠ idKey))
  { action := "update".toList, collection := some collection,
    id := some id, data := some cleanData }

/-- The wrapper `update`: build the id-stripped payload and dispatch it. -/
def update (ser : XDBRequest A → Str) (st : ClientState)
    (collection id : Str) (data : List (Str × A)) (rid : Nat) :
    ClientState × SendResult × Option Str :=
  sendCommand ser st (updatePayload collection id data) rid

/-- One externally triggered event on the connection. -/
inductive Step where
  | data (chunk : Str)
  | sockErr (e : SockErr)
  | closeEvt
deriving Repr

/-- Dispatch one step to the corresponding handler. -/
def stepEvents (parse : Str → Option V) (st : ClientState) : Step → ClientState × List (Event V)
  | Step.data c => handleStreamData parse st c
  | Step.sockErr e => onSocketError V st e
  | Step.closeEvt => (onClose st, [])

/-- Run a sequence of steps, accumulating all events in order. -/
def runSteps (parse : Str → Option V) (st : ClientState) : List Step → ClientState × List (Event V)
  | [] => (st, [])
  | s :: ss =>
    let p := stepEvents parse st s
    let q := runSteps parse p.1 ss
    (q.1, p.2 ++ q.2)

/-- The resolver ids that an event list resolves or rejects. -/
def settledIds : List (Event V) → List Nat
  | [] => []
  | Event.resolve i _ :: es => i :: settledIds es
  | Event.reject i _ :: es => i :: settledIds es
  | Event.connectReject _ :: es => settledIds es
  | Event.log _ _ :: es => settledIds es

/-- The complete-line candidates that are actually handed to resolvers:
non-blank lines, in order. -/
def nonBlankLines (ls : List Str) : List Str := ls.filter (fun l => ! jsBlank l)

/-- Rejoining the split with newlines recovers the original string. -/
def joinNl : List Str → Str
  | [] => []
  | [a] => a
  | a :: b :: rest => a ++ '\n' :: joinNl (b :: rest)

/-- A generic (non-refused) socket error used in concrete scenarios. -/
def errGeneric : SockErr := ⟨['E'], ['b', 'o', 'o', 'm']⟩

/-- A connection-refused socket error used in concrete scenarios. -/
def errRefused : SockErr := ⟨ECONNREFUSED, []⟩

/-- Trivial serializer for concrete dispatch scenarios. -/
def serW : Nat → Str := fun _ => []

/-- Concrete parse function for witnesses: `"a"` parses to `1`, `"b"` to `2`,
everything else is malformed. -/
def parseW : Str → Option Nat :=
  fun l => if l = ['a'] then some 1 else if l = ['b'] then some 2 else none

/-- Serializer over `Nat`-valued request objects for concrete scenarios. -/
def serU : XDBRequest Nat → Str := fun _ => []

-- ### Basic properties of `splitNl`

theorem splitNl_ne_nil (s : Str) : splitNl s ≠ [] := by
  induction s with
  | nil => simp [splitNl]
  | cons c s ih =>
    by_cases h : c = '\n'
    · simp [splitNl, h]
    · cases hs : splitNl s with
      | nil => simp [splitNl, h, hs]
      | cons a as => simp [splitNl, h, hs]

theorem no_newline_of_mem_splitNl {s l : Str} (h : l ∈ splitNl s) : '\n' ∉ l := by
  induction s generalizing l with
  | nil =>
    simp [splitNl] at h
    subst h; simp
  | cons c s ih =>
    by_cases hc : c = '\n'
    · rw [splitNl, if_pos hc] at h
      rcases List.mem_cons.mp h with h | h
      · subst h; simp
      · exact ih h
    · rw [splitNl, if_neg hc] at h
      cases hs : splitNl s with
      | nil => exact absurd hs (splitNl_ne_nil s)
      | cons a as =>
        rw [hs] at h
        rcases List.mem_cons.mp h with h | h
        · subst h
          intro hmem
          rcases List.mem_cons.mp hmem with h | h
          · exact hc h.symm
          · exact ih (hs ▸ List.mem_cons_self a as) h
        · exact ih (hs ▸ List.mem_cons_of_mem a h)

theorem splitNl_cons_newline (s : Str) : splitNl ('\n' :: s) = [] :: splitNl s := by
  rw [splitNl, if_pos rfl]

theorem splitNl_cons {c : Char} (hc : c ≠ '\n') {s : Str} {a : Str} {as : List Str}
    (hs : splitNl s = a :: as) : splitNl (c :: s) = (c :: a) :: as := by
  rw [splitNl, if_neg hc, hs]

theorem lastSeg_cons (a : Str) {l : List Str} (h : l ≠ []) :
    lastSeg (a :: l) = lastSeg l := by
  cases l with
  | nil => exact absurd rfl h
  | cons b t => rfl

theorem lastSeg_mem {l : List Str} (h : l ≠ []) : lastSeg l ∈ l := by
  induction l with
  | nil => exact absurd rfl h
  | cons a t ih =>
    cases t with
    | nil => simp [lastSeg]
    | cons b u =>
      rw [lastSeg_cons a (by simp)]
      exact List.mem_cons_of_mem a (ih (by simp))

theorem lastSeg_append_right (xs : List Str) {ys : List Str} (h : ys ≠ []) :
    lastSeg (xs ++ ys) = lastSeg ys := by
  induction xs with
  | nil => rfl
  | cons a xs ih =>
    rw [List.cons_append, lastSeg_cons a (by simp [h]), ih]

theorem dropLast_cons {α : Type _} (a : α) {l : List α} (h : l ≠ []) :
    (a :: l).dropLast = a :: l.dropLast := by
  cases l with
  | nil => exact absurd rfl h
  | cons b t => rfl

theorem dropLast_append_right {α : Type _} (xs : List α) {ys : List α} (h : ys ≠ []) :
    (xs ++ ys).dropLast = xs ++ ys.dropLast := by
  induction xs with
  | nil => rfl
  | cons a xs ih =>
    rw [List.cons_append, dropLast_cons a (by simp [h]), ih, List.cons_append]

/-- Splitting a string without newlines yields the single segment. -/
theorem splitNl_noNl {s : Str} (h : '\n' ∉ s) : splitNl s = [s] := by
  induction s with
  | nil => rfl
  | cons c s ih =>
    have hc : c ≠ '\n' := fun he => h (he ▸ List.mem_cons_self c s)
    have hs := ih (fun hm => h (List.mem_cons_of_mem c hm))
    exact splitNl_cons hc hs

/-- A newline-free line followed by the delimiter peels off as one segment. -/
theorem splitNl_line {l : Str} (h : '\n' ∉ l) (t : Str) :
    splitNl (l ++ '\n' :: t) = l :: splitNl t := by
  induction l with
  | nil => exact splitNl_cons_newline t
  | cons c l ih =>
    have hc : c ≠ '\n' := fun he => h (he ▸ List.mem_cons_self c l)
    have hl := ih (fun hm => h (List.mem_cons_of_mem c hm))
    rw [List.cons_append, splitNl_cons hc hl]

/-- Key composition law for the framer: splitting a concatenation is splitting
the first part, then re-splitting its final (incomplete) segment glued to the
second part. -/
theorem splitNl_append (x y : Str) :
    splitNl (x ++ y) = (splitNl x).dropLast ++ splitNl (lastSeg (splitNl x) ++ y) := by
  induction x with
  | nil => simp [splitNl, lastSeg]
  | cons c x ih =>
    by_cases hc : c = '\n'
    · subst hc
      rw [List.cons_append, splitNl_cons_newline, splitNl_cons_newline, ih]
      cases hX : splitNl x with
      | nil => exact absurd hX (splitNl_ne_nil x)
      | cons a as =>
        rw [dropLast_cons ([] : Str) (by simp), lastSeg_cons ([] : Str) (by simp),
          List.cons_append]
    · cases hM : splitNl (x ++ y) with
      | nil => exact absurd hM (splitNl_ne_nil (x ++ y))
      | cons m ms =>
        rw [List.cons_append, splitNl_cons hc hM]
        cases hX : splitNl x with
        | nil => exact absurd hX (splitNl_ne_nil x)
        | cons a as =>
          rw [splitNl_cons hc hX]
          cases as with
          | nil =>
            have hIH : m :: ms = splitNl (a ++ y) := by
              rw [hX, hM] at ih
              simpa [lastSeg, List.dropLast_single] using ih
            rw [show ([c :: a] : List Str).dropLast = [] from rfl,
              show lastSeg [c :: a] = c :: a from rfl,
              List.nil_append, List.cons_append, splitNl_cons hc hIH.symm]
          | cons b bs =>
            have hIH : m :: ms
                = a :: ((b :: bs).dropLast ++ splitNl (lastSeg (b :: bs) ++ y)) := by
              rw [hX, hM] at ih
              rw [dropLast_cons a (by simp), lastSeg_cons a (by simp),
                List.cons_append] at ih
              exact ih
            rw [dropLast_cons (c :: a) (by simp), lastSeg_cons (c :: a) (by simp),
              List.cons_append]
            rw [List.cons.injEq] at hIH
            rw [hIH.2, ← hIH.1]

theorem joinNl_splitNl (s : Str) : joinNl (splitNl s) = s := by
  induction s with
  | nil => rfl
  | cons c s ih =>
    by_cases hc : c = '\n'
    · subst hc
      rw [splitNl_cons_newline]
      cases hL : splitNl s with
      | nil => exact absurd hL (splitNl_ne_nil s)
      | cons a as =>
        rw [joinNl, List.nil_append, ← hL, ih]
    · cases hL : splitNl s with
      | nil => exact absurd hL (splitNl_ne_nil s)
      | cons a as =>
        rw [splitNl_cons hc hL]
        cases as with
        | nil =>
          have : a = s := by rw [hL] at ih; simpa [joinNl] using ih
          rw [joinNl, this]
        | cons b bs =>
          rw [joinNl, List.cons_append, ← joinNl, ← hL, ih]

theorem joinNl_eq_dropLast (L : List Str) (h : 2 ≤ L.length) :
    joinNl L = joinNl L.dropLast ++ '\n' :: lastSeg L := by
  induction L with
  | nil => simp at h
  | cons a L ih =>
    cases L with
    | nil => simp at h
    | cons b M =>
      cases M with
      | nil => rfl
      | cons d N =>
        show a ++ '\n' :: joinNl (b :: d :: N)
            = joinNl ((a :: b :: d :: N).dropLast) ++ '\n' :: lastSeg (a :: b :: d :: N)
        rw [ih (by simp),
          show (a :: b :: d :: N).dropLast = a :: b :: (d :: N).dropLast from rfl,
          show (b :: d :: N).dropLast = b :: (d :: N).dropLast from rfl,
          show lastSeg (a :: b :: d :: N) = lastSeg (b :: d :: N) from rfl,
          show joinNl (a :: b :: (d :: N).dropLast)
            = a ++ '\n' :: joinNl (b :: (d :: N).dropLast) from rfl]
        simp [List.append_assoc]

/-- The retained buffer (the final split segment) is exactly the text after
the last delimiter: either the whole string contains no delimiter, or
everything before the buffer ends in a newline. -/
theorem buffer_suffix_char (s : Str) :
    s = lastSeg (splitNl s) ∨ ∃ p, s = p ++ '\n' :: lastSeg (splitNl s) := by
  rcases Nat.lt_or_ge (splitNl s).length 2 with h | h
  · left
    cases hL : splitNl s with
    | nil => exact absurd hL (splitNl_ne_nil s)
    | cons a as =>
      cases as with
      | nil =>
        have := joinNl_splitNl s
        rw [hL] at this
        simpa [joinNl, lastSeg] using this.symm
      | cons b bs => rw [hL] at h; simp at h; omega
  · right
    refine ⟨joinNl (splitNl s).dropLast, ?_⟩
    conv_lhs => rw [← joinNl_splitNl s]
    exact joinNl_eq_dropLast _ h

-- ### The framer loop in closed form

theorem processLines_eq (parse : Str → Option V) (ls : List Str) (st : ClientState) :
    processLines parse ls st =
      ({ st with responseQueue := st.responseQueue.drop (nonBlankLines ls).length },
       ((nonBlankLines ls).zipWith (lineEvents parse) st.responseQueue).flatten) := by
  induction ls generalizing st with
  | nil => simp [processLines, nonBlankLines]
  | cons l rest ih =>
    by_cases hb : jsBlank l
    · have hstep : processLines parse (l :: rest) st = processLines parse rest st := by
        rw [processLines, if_pos hb]
      rw [hstep, ih]
      simp [nonBlankLines, List.filter_cons, hb]
    · cases hq : st.responseQueue with
      | nil =>
        have hstep : processLines parse (l :: rest) st = processLines parse rest st := by
          rw [processLines, if_neg hb, hq]
        rw [hstep, ih]
        simp [nonBlankLines, List.filter_cons, hb, hq]
      | cons r q =>
        have hstep : processLines parse (l :: rest) st
            = ((processLines parse rest { st with responseQueue := q }).1,
               lineEvents parse l r
                 ++ (processLines parse rest { st with responseQueue := q }).2) := by
          rw [processLines, if_neg hb, hq]
        rw [hstep, ih]
        simp [nonBlankLines, List.filter_cons, hb, hq]

theorem handleStreamData_eq (parse : Str → Option V) (st : ClientState) (chunk : Str) :
    handleStreamData parse st chunk =
      ({ st with
         responseQueue := st.responseQueue.drop
           (nonBlankLines (splitNl (st.streamBuffer ++ chunk)).dropLast).length,
         streamBuffer := lastSeg (splitNl (st.streamBuffer ++ chunk)) },
       ((nonBlankLines (splitNl (st.streamBuffer ++ chunk)).dropLast).zipWith
          (lineEvents parse) st.responseQueue).flatten) := by
  rw [handleStreamData, processLines_eq]

theorem zipWith_append_drop {α β γ : Type _} (f : α → β → γ) (A B : List α) (q : List β) :
    List.zipWith f (A ++ B) q = List.zipWith f A q ++ List.zipWith f B (q.drop A.length) := by
  induction A generalizing q with
  | nil => simp
  | cons a A ih =>
    cases q with
    | nil => simp
    | cons r q => simp [ih]

/-- The framer after the buffer retains no delimiter. -/
theorem hsd_buffer_no_newline (parse : Str → Option V) (st : ClientState) (chunk : Str) :
    '\n' ∉ (handleStreamData parse st chunk).1.streamBuffer := by
  rw [handleStreamData_eq]
  exact no_newline_of_mem_splitNl (lastSeg_mem (splitNl_ne_nil _))

/-- Chunk-composition: feeding a concatenation is feeding the two pieces in
sequence — the states agree and the events concatenate. -/
theorem handleStreamData_append (parse : Str → Option V) (st : ClientState) (a b : Str) :
    handleStreamData parse st (a ++ b)
      = ((handleStreamData parse (handleStreamData parse st a).1 b).1,
         (handleStreamData parse st a).2
           ++ (handleStreamData parse (handleStreamData parse st a).1 b).2) := by
  have hM := splitNl_ne_nil (lastSeg (splitNl (st.streamBuffer ++ a)) ++ b)
  simp only [handleStreamData_eq]
  rw [← List.append_assoc st.streamBuffer a b,
    splitNl_append (st.streamBuffer ++ a) b,
    lastSeg_append_right _ hM,
    dropLast_append_right _ hM]
  simp only [nonBlankLines, List.filter_append, zipWith_append_drop,
    List.flatten_append, List.length_append, List.drop_drop]

/-- A pure data-chunk run is one framer call on the concatenated bytes. -/
theorem runSteps_data (parse : Str → Option V) (cs : List Str) (st : ClientState)
    (h : '\n' ∉ st.streamBuffer) :
    runSteps parse st (cs.map Step.data) = handleStreamData parse st cs.flatten := by
  induction cs generalizing st with
  | nil =>
    rw [List.map_nil, runSteps, List.flatten_nil, handleStreamData_eq,
      List.append_nil, splitNl_noNl h]
    simp [nonBlankLines, lastSeg]
  | cons c cs ih =>
    have h1 : runSteps parse st (Step.data c :: cs.map Step.data)
        = ((runSteps parse (handleStreamData parse st c).1 (cs.map Step.data)).1,
           (handleStreamData parse st c).2
             ++ (runSteps parse (handleStreamData parse st c).1 (cs.map Step.data)).2) := by
      rw [runSteps]; rfl
    rw [List.map_cons, h1, ih _ (hsd_buffer_no_newline parse st c), List.flatten_cons]
    exact (handleStreamData_append parse st c cs.flatten).symm

/-- Splitting a stream of newline-terminated, newline-free lines yields the
lines followed by the empty tail segment. -/
theorem splitNl_joined_lines {lines : List Str} (h : ∀ l ∈ lines, '\n' ∉ l) :
    splitNl ((lines.map (fun l => l ++ ['\n'])).flatten) = lines ++ [[]] := by
  induction lines with
  | nil => rfl
  | cons l rest ih =>
    rw [List.map_cons, List.flatten_cons,
      show (l ++ ['\n']) ++ (rest.map (fun x => x ++ ['\n'])).flatten
        = l ++ '\n' :: (rest.map (fun x => x ++ ['\n'])).flatten from by simp,
      splitNl_line (h l (List.mem_cons_self l rest)),
      ih (fun x hx => h x (List.mem_cons_of_mem l hx))]
    rfl

/-- When every line parses, each resolver receives exactly its parsed value. -/
theorem flatten_zipWith_resolve (parse : Str → Option V) {lines : List Str} {vs : List V}
    (hp : List.Forall₂ (fun l v => parse l = some v) lines vs) (ids : List Nat) :
    (List.zipWith (lineEvents parse) lines ids).flatten
      = List.zipWith (fun i v => Event.resolve i v) ids vs := by
  induction hp generalizing ids with
  | nil => simp
  | cons h tl ih =>
    cases ids with
    | nil => simp
    | cons i ids =>
      simp only [List.zipWith_cons_cons, List.flatten_cons, lineEvents, h, ih]
      rfl

-- ### Exactly-once accounting

theorem settledIds_append (es fs : List (Event V)) :
    settledIds (es ++ fs) = settledIds es ++ settledIds fs := by
  induction es with
  | nil => rfl
  | cons e es ih => cases e <;> simp [settledIds, ih]

theorem settledIds_lineEvents (parse : Str → Option V) (l : Str) (r : Nat) :
    settledIds (lineEvents parse l r) = [r] := by
  cases hp : parse l <;> simp [lineEvents, hp, settledIds]

theorem settledIds_flatten_zipWith (parse : Str → Option V) (ls : List Str) (q : List Nat) :
    settledIds (List.zipWith (lineEvents parse) ls q).flatten = q.take ls.length := by
  induction ls generalizing q with
  | nil => simp [settledIds]
  | cons l ls ih =>
    cases q with
    | nil => simp [settledIds]
    | cons r q =>
      simp only [List.zipWith_cons_cons, List.flatten_cons, settledIds_append,
        settledIds_lineEvents, ih, List.take_succ_cons]
      rfl

theorem settledIds_errorLogs (V : Type) (err : SockErr) :
    settledIds (errorLogs V err) = [] := by
  by_cases h : err.code = ECONNREFUSED <;> simp [errorLogs, h, settledIds]

/-- Each handler settles exactly the prefix of the queue it removes. -/
theorem step_settled (parse : Str → Option V) (st : ClientState) (s : Step) :
    settledIds (stepEvents parse st s).2 ++ (stepEvents parse st s).1.responseQueue
      = st.responseQueue := by
  cases s with
  | data c =>
    show settledIds (handleStreamData parse st c).2
        ++ (handleStreamData parse st c).1.responseQueue = st.responseQueue
    rw [handleStreamData_eq]
    simp only [settledIds_flatten_zipWith]
    exact List.take_append_drop _ _
  | sockErr e =>
    cases hq : st.responseQueue with
    | nil =>
      simp [stepEvents, onSocketError, hq, settledIds_append, settledIds,
        settledIds_errorLogs]
    | cons r q =>
      simp [stepEvents, onSocketError, hq, settledIds_append, settledIds,
        settledIds_errorLogs]
  | closeEvt => simp [stepEvents, onClose, settledIds]

/-- Run invariant: settled ids followed by the remaining queue reconstruct the
original queue. -/
theorem runSteps_settled (parse : Str → Option V) (st : ClientState) (ss : List Step) :
    settledIds (runSteps parse st ss).2 ++ (runSteps parse st ss).1.responseQueue
      = st.responseQueue := by
  induction ss generalizing st with
  | nil => simp [runSteps, settledIds]
  | cons s ss ih =>
    have h1 : runSteps parse st (s :: ss)
        = ((runSteps parse (stepEvents parse st s).1 ss).1,
           (stepEvents parse st s).2
             ++ (runSteps parse (stepEvents parse st s).1 ss).2) := by
      rw [runSteps]
    rw [h1, settledIds_append, List.append_assoc, ih, step_settled]

-- ### Claims

/-- C1: for every sequence of N dispatched commands on one connection, if N
complete, well-formed newline-terminated response lines are delivered under
any partition of the byte stream into data-event chunks, the i-th resolver
resolves with the parsed content of the i-th delivered response line, all
lines are consumed, and the queue and buffer end empty. -/
theorem C1_fifo_correlation (parse : Str → Option V) (ids : List Nat) (lines : List Str)
    (vs : List V) (cs : List Str)
    (hjoin : cs.flatten = (lines.map (fun l => l ++ ['\n'])).flatten)
    (hlen : ids.length = lines.length)
    (hnl : ∀ l ∈ lines, '\n' ∉ l)
    (hblank : ∀ l ∈ lines, jsBlank l = false)
    (hparse : List.Forall₂ (fun l v => parse l = some v) lines vs) :
    runSteps parse ⟨true, ids, []⟩ (cs.map Step.data)
      = (⟨true, [], []⟩, List.zipWith (fun i v => Event.resolve i v) ids vs) := by
  rw [runSteps_data parse cs _ (by simp), handleStreamData_eq]
  have hfil : nonBlankLines lines = lines :=
    List.filter_eq_self.mpr (fun l hl => by simp [hblank l hl])
  have hbuf : (⟨true, ids, []⟩ : ClientState).streamBuffer ++ cs.flatten
      = (lines.map (fun l => l ++ ['\n'])).flatten := by
    rw [show (⟨true, ids, []⟩ : ClientState).streamBuffer = [] from rfl,
      List.nil_append, hjoin]
  rw [hbuf, splitNl_joined_lines hnl, List.dropLast_concat,
    lastSeg_append_right lines (by simp),
    show lastSeg [([] : Str)] = [] from rfl, hfil,
    flatten_zipWith_resolve parse hparse ids,
    show (⟨true, ids, []⟩ : ClientState).responseQueue = ids from rfl,
    ← hlen, List.drop_length]

/-- C2: `handleStreamData` appends the chunk to the buffer, splits on the
newline delimiter, retains exactly the final split element as the new buffer
(equivalently: the text after the last delimiter, never treated as a complete
message), silently discards blank elements, and hands every other element to
the oldest resolvers in order. -/
theorem C2_framer_contract (parse : Str → Option V) (st : ClientState) (chunk : Str) :
    handleStreamData parse st chunk =
      ({ st with
         responseQueue := st.responseQueue.drop
           (nonBlankLines (splitNl (st.streamBuffer ++ chunk)).dropLast).length,
         streamBuffer := lastSeg (splitNl (st.streamBuffer ++ chunk)) },
       ((nonBlankLines (splitNl (st.streamBuffer ++ chunk)).dropLast).zipWith
          (lineEvents parse) st.responseQueue).flatten)
    ∧ (st.streamBuffer ++ chunk = lastSeg (splitNl (st.streamBuffer ++ chunk))
        ∨ ∃ p, st.streamBuffer ++ chunk
            = p ++ '\n' :: lastSeg (splitNl (st.streamBuffer ++ chunk))) :=
  ⟨handleStreamData_eq parse st chunk, buffer_suffix_char _⟩

/-- C10: after every framer invocation the retained stream buffer contains no
newline character. -/
theorem C10_buffer_has_no_newline (parse : Str → Option V) (st : ClientState)
    (chunk : Str) :
    '\n' ∉ (handleStreamData parse st chunk).1.streamBuffer := by
  rw [handleStreamData_eq]
  exact no_newline_of_mem_splitNl (lastSeg_mem (splitNl_ne_nil _))

/-- C3 counterexample: a socket error with two pending entries leaves the
connection reported unusable (`isConnected = false`) while an entry is still
queued — the pending-request queue is not drained. -/
theorem C3_counterexample :
    (onSocketError Nat ⟨true, [0, 1], []⟩ errGeneric).1.isConnected = false ∧
    (onSocketError Nat ⟨true, [0, 1], []⟩ errGeneric).1.responseQueue = [1] :=
  ⟨rfl, rfl⟩

/-- C3 amended: when the connection is reported erroring with pending entries,
only the oldest entry is failed and the remaining entries stay queued; a close
event leaves the queue untouched — so the queue may retain entries at the
point the connection is declared unusable. -/
theorem C3_amended_error_keeps_rest (V : Type) (st : ClientState) (err : SockErr)
    (r : Nat) (q : List Nat) (hq : st.responseQueue = r :: q) :
    (onSocketError V st err).1.responseQueue = q ∧
    (onSocketError V st err).1.isConnected = false ∧
    Event.reject r (FailCond.socket err) ∈ (onSocketError V st err).2 ∧
    (onClose st).responseQueue = st.responseQueue := by
  have h1 : onSocketError V st err
      = ({ st with isConnected := false, responseQueue := q },
         errorLogs V err ++ [Event.reject r (FailCond.socket err)]) := by
    simp only [onSocketError, hq]
  rw [h1]
  exact ⟨rfl, rfl, by simp, rfl⟩

/-- C3 amended, witness at a concrete two-entry queue. -/
theorem C3_amended_witness :
    (⟨true, [7, 8], []⟩ : ClientState).responseQueue = 7 :: [8] ∧
    ((onSocketError Nat ⟨true, [7, 8], []⟩ errGeneric).1.responseQueue = [8] ∧
     (onSocketError Nat ⟨true, [7, 8], []⟩ errGeneric).1.isConnected = false ∧
     Event.reject 7 (FailCond.socket errGeneric)
       ∈ (onSocketError Nat ⟨true, [7, 8], []⟩ errGeneric).2 ∧
     (onClose ⟨true, [7, 8], []⟩).responseQueue
       = (⟨true, [7, 8], []⟩ : ClientState).responseQueue) :=
  ⟨rfl, C3_amended_error_keeps_rest Nat ⟨true, [7, 8], []⟩ errGeneric 7 [8] rfl⟩

/-- C4: a transport error event with a non-empty queue pops and fails exactly
the oldest pending entry with that error, after the log lines; all remaining
entries stay queued unchanged. -/
theorem C4_error_fails_only_oldest (V : Type) (st : ClientState) (err : SockErr)
    (r : Nat) (q : List Nat) (hq : st.responseQueue = r :: q) :
    onSocketError V st err
      = ({ st with isConnected := false, responseQueue := q },
         errorLogs V err ++ [Event.reject r (FailCond.socket err)]) := by
  simp only [onSocketError, hq]

/-- C4 witness at a concrete three-entry queue. -/
theorem C4_witness :
    (⟨true, [3, 4, 5], ['x']⟩ : ClientState).responseQueue = 3 :: [4, 5] ∧
    onSocketError Nat ⟨true, [3, 4, 5], ['x']⟩ errGeneric
      = ({ isConnected := false, responseQueue := [4, 5], streamBuffer := ['x'] },
         errorLogs Nat errGeneric ++ [Event.reject 3 (FailCond.socket errGeneric)]) :=
  ⟨rfl, C4_error_fails_only_oldest Nat ⟨true, [3, 4, 5], ['x']⟩ errGeneric 3 [4, 5] rfl⟩

/-- C5: a dispatch attempted while not connected fails synchronously with the
not-connected condition; no entry is enqueued, nothing is written, and the
whole client state is returned unchanged. -/
theorem C5_not_connected_rejects (ser : P → Str) (st : ClientState) (payload : P)
    (rid : Nat) (h : st.isConnected = false) :
    sendCommand ser st payload rid = (st, SendResult.rejectedNotConnected, none) := by
  simp [sendCommand, h]

/-- C5 witness at a concrete disconnected state. -/
theorem C5_witness :
    (⟨false, [3], ['x']⟩ : ClientState).isConnected = false ∧
    sendCommand serW ⟨false, [3], ['x']⟩ 0 9
      = (⟨false, [3], ['x']⟩, SendResult.rejectedNotConnected, none) :=
  ⟨rfl, C5_not_connected_rejects serW ⟨false, [3], ['x']⟩ 0 9 rfl⟩

/-- C6: a complete non-blank line that fails to parse fails only the oldest
pending entry, with the malformed condition (a constructor distinct from every
connectivity error), logs the raw offending text, and leaves the buffer state
intact so that the following response line still resolves the next entry. -/
theorem C6_malformed_line (parse : Str → Option V) (l l2 : Str) (r1 r2 : Nat)
    (q : List Nat) (conn : Bool) (v2 : V)
    (hnl : '\n' ∉ l) (hb : jsBlank l = false) (hp : parse l = none)
    (hnl2 : '\n' ∉ l2) (hb2 : jsBlank l2 = false) (hp2 : parse l2 = some v2) :
    handleStreamData parse ⟨conn, r1 :: r2 :: q, []⟩ (l ++ '\n' :: (l2 ++ ['\n']))
      = (⟨conn, q, []⟩,
         [Event.log Level.error (LogMsg.malformedJson l),
          Event.reject r1 FailCond.malformed,
          Event.resolve r2 v2]) ∧
    ∀ e : SockErr, FailCond.malformed ≠ FailCond.socket e := by
  refine ⟨?_, fun e h => FailCond.noConfusion h⟩
  have hs : splitNl ((⟨conn, r1 :: r2 :: q, []⟩ : ClientState).streamBuffer
      ++ (l ++ '\n' :: (l2 ++ ['\n']))) = [l, l2, []] := by
    show splitNl (([] : Str) ++ (l ++ '\n' :: (l2 ++ ['\n']))) = [l, l2, []]
    rw [List.nil_append, splitNl_line hnl,
      show l2 ++ ['\n'] = l2 ++ '\n' :: ([] : Str) from rfl, splitNl_line hnl2]
    rfl
  rw [handleStreamData_eq, hs,
    show ([l, l2, []] : List Str).dropLast = [l, l2] from rfl,
    show nonBlankLines [l, l2] = [l, l2] from by
      simp [nonBlankLines, List.filter_cons, hb, hb2]]
  simp [lineEvents, hp, hp2, lastSeg]

/-- C6 witness: a malformed line followed by a well-formed one. -/
theorem C6_witness :
    parseW ['x'] = none ∧
    handleStreamData parseW ⟨true, 1 :: 2 :: [], []⟩ (['x'] ++ '\n' :: (['a'] ++ ['\n']))
      = (⟨true, [], []⟩,
         [Event.log Level.error (LogMsg.malformedJson ['x']),
          Event.reject 1 FailCond.malformed,
          Event.resolve 2 1]) :=
  ⟨rfl, (C6_malformed_line parseW ['x'] ['a'] 1 2 [] true 1 (by decide) (by decide) rfl
    (by decide) (by decide) rfl).1⟩

/-- C7: a transport error with zero pending entries rejects the in-flight
`connect()` call with that error; a refusal additionally emits the
distinguished failed-to-connect error plus server hint warning, while any
other code emits only the generic transport-error log. -/
theorem C7_connect_phase_error (V : Type) (st : ClientState) (err : SockErr)
    (hq : st.responseQueue = []) :
    onSocketError V st err
      = ({ st with isConnected := false },
         (if err.code = ECONNREFUSED
          then [Event.log Level.error LogMsg.failedToConnect,
                Event.log Level.warn LogMsg.serverHint]
          else [Event.log Level.error (LogMsg.socketError err.msg)])
           ++ [Event.connectReject err]) := by
  simp only [onSocketError, hq, errorLogs]

/-- C7 witness at a concrete refused connection with an empty queue. -/
theorem C7_witness :
    (⟨false, [], []⟩ : ClientState).responseQueue = [] ∧
    onSocketError Nat ⟨false, [], []⟩ errRefused
      = (⟨false, [], []⟩,
         (if errRefused.code = ECONNREFUSED
          then [Event.log Level.error LogMsg.failedToConnect,
                Event.log Level.warn LogMsg.serverHint]
          else [Event.log Level.error (LogMsg.socketError errRefused.msg)])
           ++ [Event.connectReject errRefused]) :=
  ⟨rfl, C7_connect_phase_error Nat ⟨false, [], []⟩ errRefused rfl⟩

/-- C8: across any run of data chunks, socket errors and close events, the
settled resolver ids followed by the remaining queue reconstruct the original
queue; when the queued ids are distinct, every original entry is settled
exactly once or still pending exactly once — never zero times, never twice. -/
theorem C8_exactly_once (parse : Str → Option V) (st : ClientState) (ss : List Step) :
    settledIds (runSteps parse st ss).2 ++ (runSteps parse st ss).1.responseQueue
      = st.responseQueue ∧
    (st.responseQueue.Nodup → ∀ i ∈ st.responseQueue,
      (settledIds (runSteps parse st ss).2).count i
        + (runSteps parse st ss).1.responseQueue.count i = 1) := by
  refine ⟨runSteps_settled parse st ss, fun hnd i hi => ?_⟩
  have hc : (settledIds (runSteps parse st ss).2
      ++ (runSteps parse st ss).1.responseQueue).count i
      = st.responseQueue.count i := by rw [runSteps_settled parse st ss]
  rw [List.count_append] at hc
  rw [hc]
  exact List.count_eq_one_of_mem hnd hi

/-- C8 witness: a malformed line, then a socket error, on two distinct
pending entries. -/
theorem C8_witness :
    settledIds (runSteps parseW ⟨true, [5, 6], []⟩
        [Step.data ['z', '\n'], Step.sockErr errGeneric]).2
      ++ (runSteps parseW ⟨true, [5, 6], []⟩
        [Step.data ['z', '\n'], Step.sockErr errGeneric]).1.responseQueue
      = [5, 6] ∧
    (([5, 6] : List Nat).Nodup → ∀ i ∈ ([5, 6] : List Nat),
      (settledIds (runSteps parseW ⟨true, [5, 6], []⟩
          [Step.data ['z', '\n'], Step.sockErr errGeneric]).2).count i
        + (runSteps parseW ⟨true, [5, 6], []⟩
          [Step.data ['z', '\n'], Step.sockErr errGeneric]).1.responseQueue.count i
        = 1) :=
  C8_exactly_once parseW ⟨true, [5, 6], []⟩ [Step.data ['z', '\n'], Step.sockErr errGeneric]

/-- C9: `update` dispatches a request whose fields are the update action, the
collection, the id, and the caller's data with every `_id` entry stripped from
the data body before serialization. -/
theorem C9_update_strips_id (ser : XDBRequest A → Str) (st : ClientState)
    (collection id : Str) (data : List (Str × A)) (rid : Nat)
    (hconn : st.isConnected = true) :
    (updatePayload collection id data).action = "update".toList ∧
    (updatePayload collection id data).collection = some collection ∧
    (updatePayload collection id data).id = some id ∧
    (updatePayload collection id data).data
      = some (data.filter (fun kv => decide (kv.1 ≠ idKey))) ∧
    idKey ∉ (data.filter (fun kv => decide (kv.1 ≠ idKey))).map Prod.fst ∧
    update ser st collection id data rid
      = ({ st with responseQueue := st.responseQueue ++ [rid] },
         SendResult.enqueued rid,
         some (ser (updatePayload collection id data) ++ ['\n'])) := by
  refine ⟨rfl, rfl, rfl, rfl, ?_, ?_⟩
  · intro hmem
    rcases List.mem_map.mp hmem with ⟨kv, hkv, hfst⟩
    rcases List.mem_filter.mp hkv with ⟨-, hpred⟩
    exact (of_decide_eq_true hpred) hfst
  · simp [update, sendCommand, hconn]

/-- C9 witness: an `_id` entry in the caller's data is stripped. -/
theorem C9_witness :
    (⟨true, [], []⟩ : ClientState).isConnected = true ∧
    idKey ∉ (([(idKey, (0 : Nat)), (['x'], 1)]).filter
      (fun kv => decide (kv.1 ≠ idKey))).map Prod.fst :=
  ⟨rfl, (C9_update_strips_id serU ⟨true, [], []⟩ ['c'] ['k']
    [(idKey, (0 : Nat)), (['x'], 1)] 0 rfl).2.2.2.2.1⟩

/-- C1 witness: two commands and two response lines delivered in two chunks
split across the line boundary. -/
theorem C1_witness :
    ([['a', '\n', 'b'], ['\n']] : List Str).flatten
      = (([['a'], ['b']] : List Str).map (fun l => l ++ ['\n'])).flatten ∧
    runSteps parseW ⟨true, [10, 11], []⟩
        (([['a', '\n', 'b'], ['\n']] : List Str).map Step.data)
      = (⟨true, [], []⟩,
         List.zipWith (fun i v => Event.resolve i v) [10, 11] [1, 2]) :=
  ⟨by decide,
   C1_fifo_correlation parseW [10, 11] [['a'], ['b']] [1, 2] [['a', '\n', 'b'], ['\n']]
     (by decide) rfl (by decide) (by decide)
     (List.Forall₂.cons (by decide) (List.Forall₂.cons (by decide) List.Forall₂.nil))⟩

end XDB
